import Mathlib

/-!
Shallow embedding of the voltlog-io structured-logging library
(`src/core/types.ts`, `src/core/levels`, `src/core/pipeline.ts`,
`src/transports/ring-buffer.ts`, `src/transformers/batch`,
`src/transformers/webhook.ts`, `src/middleware/level-override`,
`src/middleware/deduplication`), together with theorems settling the
specification claims about it.

JavaScript numbers that can be `Infinity` (the `SILENT` level weight) are
modelled as `WithTop Nat`; everything else uses `Nat`, `List`, `Option`
and `Except` in the obvious way.
-/

namespace Voltlog

/-! ### Log levels (`src/core/types.ts`, `src/core/levels`) -/

/-- The seven level names of the `LogLevel` object, in object-key order. -/
inductive LevelName where
  | TRACE | DEBUG | INFO | WARN | ERROR | FATAL | SILENT
deriving DecidableEq, Repr

/-- `LogLevel` constant object: `TRACE:10 … FATAL:60, SILENT: Infinity`. -/
def LogLevel : LevelName → WithTop ℕ
  | .TRACE => 10
  | .DEBUG => 20
  | .INFO => 30
  | .WARN => 40
  | .ERROR => 50
  | .FATAL => 60
  | .SILENT => ⊤

/-- The keys of `LogLevel` in insertion order (`Object.entries` order). -/
def levelNamesInOrder : List LevelName :=
  [.TRACE, .DEBUG, .INFO, .WARN, .ERROR, .FATAL, .SILENT]

/-- Uppercase spelling of a level name, as the TS string literal. -/
def LevelName.str : LevelName → String
  | .TRACE => "TRACE"
  | .DEBUG => "DEBUG"
  | .INFO => "INFO"
  | .WARN => "WARN"
  | .ERROR => "ERROR"
  | .FATAL => "FATAL"
  | .SILENT => "SILENT"

/-- ASCII uppercase of one character (the level names are ASCII, so
this matches `String.prototype.toUpperCase` on every relevant input). -/
def charUpper (c : Char) : Char :=
  if 'a' ≤ c ∧ c ≤ 'z' then Char.ofNat (c.toNat - 32) else c

/-- ASCII `toUpperCase`. -/
def strUpper (s : String) : String := ⟨s.data.map charUpper⟩

/-- Key lookup in the `LogLevel` object for an arbitrary (uppercased)
string: `LogLevel[upperName]`, `undefined` when the key is unknown. -/
def lookupLogLevel (s : String) : Option LevelName :=
  levelNamesInOrder.find? (fun l => l.str = s)

/-- `resolveLevel` on a value that is statically a `LogLevelName`:
the lowercase-map lookup always succeeds and returns the level weight. -/
def resolveLevel (l : LevelName) : WithTop ℕ := LogLevel l

/-- `resolveLevel` on an arbitrary string: case-insensitive lookup in
`LogLevelNameMap`, defaulting to `LogLevel.INFO` when unrecognized. -/
def resolveLevelStr (s : String) : WithTop ℕ :=
  match lookupLogLevel (strUpper s) with
  | some l => LogLevel l
  | none => LogLevel .INFO

/-- `shouldLog(entryLevel, filterLevel) = entryLevel >= filterLevel`. -/
def shouldLog (entryLevel filterLevel : WithTop ℕ) : Bool :=
  decide (filterLevel ≤ entryLevel)

/-- `LogLevelValueMap`: built from the `LogLevel` entries whose value
passes `Number.isFinite` (which drops `SILENT`'s `Infinity`), keyed by
numeric value.  Modelled as lookup of the value `v`. -/
def LogLevelValueMap (v : WithTop ℕ) : Option LevelName :=
  (levelNamesInOrder.filter (fun k => LogLevel k ≠ ⊤)).find?
    (fun k => LogLevel k = v)

/-- `LoggerImpl.getLevel()`: `LogLevelValueMap[this._level] ?? "INFO"`. -/
def getLevel (cur : WithTop ℕ) : LevelName :=
  (LogLevelValueMap cur).getD .INFO

/-- `LoggerImpl.isLevelEnabled(level)`: `resolveLevel(level) >= this._level`. -/
def isLevelEnabled (cur : WithTop ℕ) (l : LevelName) : Bool :=
  decide (cur ≤ resolveLevel l)

/-- `LoggerImpl.setLevel(level)`: `this._level = resolveLevel(level)`. -/
def setLevel (l : LevelName) : WithTop ℕ := resolveLevel l

/-- Whether the log method named `l` emits an entry when the logger's
current numeric level is `cur`.  `trace` … `error` first run the
fast-fail guard `if (v < this._level) return`, then `_logWithContext`
checks `shouldLog(v, this._level)`.  `fatal` has no fast-fail guard and
relies only on the `shouldLog` check.  There is no `silent` method. -/
def logMethodEmits (l : LevelName) (cur : WithTop ℕ) : Bool :=
  match l with
  | .FATAL => shouldLog (LogLevel .FATAL) cur
  | .SILENT => false
  | m => !(decide (LogLevel m < cur)) && shouldLog (LogLevel m) cur

/-! ### Ring buffer transport (`src/transports/ring-buffer.ts`) -/

/-- The fields of a `LogEntry` that the ring buffer inspects, plus an
`id` payload to tell entries apart. -/
structure RBEntry where
  id : ℕ
  level : WithTop ℕ
  timestamp : ℕ
deriving DecidableEq, Repr

/-- Mutable closure state of `ringBufferTransport`:
`buffer` (a JS array), the write cursor `head`, and `count`. -/
structure RingBuffer where
  maxSize : ℕ
  buffer : List RBEntry
  head : ℕ
  count : ℕ
deriving DecidableEq, Repr

/-- Freshly created transport: empty buffer, `head = 0`, `count = 0`. -/
def mkRingBuffer (maxSize : ℕ) : RingBuffer :=
  { maxSize := maxSize, buffer := [], head := 0, count := 0 }

/-- `write(entry)`: push while below capacity, else overwrite the slot at
`head`; in both cases advance `head` modulo `maxSize`. -/
def RingBuffer.write (rb : RingBuffer) (e : RBEntry) : RingBuffer :=
  if rb.count < rb.maxSize then
    { rb with
      buffer := rb.buffer ++ [e]
      count := rb.count + 1
      head := (rb.head + 1) % rb.maxSize }
  else
    { rb with
      buffer := rb.buffer.set rb.head e
      head := (rb.head + 1) % rb.maxSize }

/-- Sequence of `write` calls, in call order. -/
def RingBuffer.writeAll (rb : RingBuffer) (es : List RBEntry) : RingBuffer :=
  es.foldl RingBuffer.write rb

/-- The `entries` local of `getEntries` before filtering: store order if
never wrapped, otherwise the slice from `head` to the end followed by
the slice from the start to `head`. -/
def RingBuffer.logicalView (rb : RingBuffer) : List RBEntry :=
  if rb.count < rb.maxSize then rb.buffer
  else rb.buffer.drop rb.head ++ rb.buffer.take rb.head

/-- `RingBufferQueryOptions`: all fields optional. -/
structure RBQuery where
  level : Option LevelName
  since : Option ℕ
  limit : Option ℕ

/-- Query with no filters (`getEntries()` with no argument). -/
def noQuery : RBQuery := { level := none, since := none, limit := none }

/-- `getEntries(query)`: reconstruct logical order, then filter by level
floor, then by timestamp floor, then keep the tail slice `slice(-limit)`.
The `since`/`limit` guards follow JS truthiness: a present-but-zero
number is falsy and skips the corresponding step; a present `level` is a
non-empty string, hence always truthy. -/
def RingBuffer.getEntries (rb : RingBuffer) (q : RBQuery) : List RBEntry :=
  let entries := rb.logicalView
  let entries := match q.level with
    | some l => entries.filter (fun e => shouldLog e.level (resolveLevel l))
    | none => entries
  let entries := match q.since with
    | some s => if s ≠ 0 then entries.filter (fun e => decide (s ≤ e.timestamp))
                else entries
    | none => entries
  match q.limit with
  | some lim => if lim ≠ 0 then entries.drop (entries.length - lim) else entries
  | none => entries

/-- The "most recent `n` results" of a list, written from the spec's
words: reverse, take `n`, reverse back. -/
def lastN (n : ℕ) (xs : List RBEntry) : List RBEntry :=
  (xs.reverse.take n).reverse

/-! ### Batching wrapper (`src/transformers/batch`, `batchTransport`) -/

/-- Closure state of `batchTransport` plus the observable trace of calls
to the inner sink: `buffer`, whether a `flushTimer` is pending, and
`delivered` — every entry passed to `inner.transform`, in call order
(each call is wrapped in `try`/`catch`, so it happens regardless of the
inner sink failing on an earlier entry). -/
structure BatchState (α : Type) where
  buffer : List α
  timerPending : Bool
  delivered : List α
deriving DecidableEq, Repr

/-- State right after `batchTransport(inner, options)` returns. -/
def initBatch (α : Type) : BatchState α :=
  { buffer := [], timerPending := false, delivered := [] }

/-- `scheduleFlush()`: return early if a timer is pending, else set one. -/
def scheduleFlush {α : Type} (s : BatchState α) : BatchState α :=
  if s.timerPending then s else { s with timerPending := true }

/-- `doFlush()`: return early on an empty buffer, else swap the buffer
for an empty one and invoke `inner.transform` on each captured entry in
order.  The pending-timer flag is not touched. -/
def doFlush {α : Type} (s : BatchState α) : BatchState α :=
  if s.buffer.length = 0 then s
  else { s with buffer := [], delivered := s.delivered ++ s.buffer }

/-- `transform(entry)`: append to the buffer; if the buffer has reached
`batchSize`, `doFlush()`, otherwise `scheduleFlush()`. -/
def batchWrite {α : Type} (batchSize : ℕ) (s : BatchState α) (e : α) :
    BatchState α :=
  let s' := { s with buffer := s.buffer ++ [e] }
  if batchSize ≤ s'.buffer.length then doFlush s' else scheduleFlush s'

/-- A sequence of `transform` calls, in call order. -/
def batchWriteAll {α : Type} (batchSize : ℕ) (s : BatchState α)
    (es : List α) : BatchState α :=
  es.foldl (batchWrite batchSize) s

/-- The `flushTimer` callback firing: clear the flag, then `doFlush()`. -/
def timerFire {α : Type} (s : BatchState α) : BatchState α :=
  doFlush { s with timerPending := false }

/-! ### Error serialization (`serializeError` in `src/core/types.ts`) -/

/-- A native `Error`.  `withCause` is an error whose `cause` property is
itself `instanceof Error`; `leaf` has no error-like cause. -/
inductive JsError where
  | leaf (message name : String) (code stack : Option String)
  | withCause (message name : String) (code stack : Option String)
      (cause : JsError)
deriving DecidableEq, Repr

/-- The serialized `LogError` tree. -/
inductive SerializedError where
  | leaf (message name : String) (code stack : Option String)
  | withCause (message name : String) (code stack : Option String)
      (cause : SerializedError)
deriving DecidableEq, Repr

/-- `serializeError(error, includeStack, depth)`: copy `message`,
`name`, `code`, the stack only when `includeStack`, and recurse into an
error-like `cause` only while `depth < 5`. -/
def serializeError : JsError → Bool → ℕ → SerializedError
  | .leaf m n c st, inc, _ => .leaf m n c (if inc then st else none)
  | .withCause m n c st cause, inc, depth =>
      if depth < 5 then
        .withCause m n c (if inc then st else none)
          (serializeError cause inc (depth + 1))
      else .leaf m n c (if inc then st else none)

/-- Length of the native cause chain (number of `cause` links). -/
def JsError.causeLinks : JsError → ℕ
  | .leaf .. => 0
  | .withCause _ _ _ _ cause => cause.causeLinks + 1

/-- Depth of the serialized tree (number of `cause` links). -/
def SerializedError.causeLinks : SerializedError → ℕ
  | .leaf .. => 0
  | .withCause _ _ _ _ cause => cause.causeLinks + 1

/-- A native cause chain of `n` links under a root error. -/
def mkChain : ℕ → JsError
  | 0 => .leaf "e0" "Error" none none
  | n + 1 => .withCause (toString (n + 1)) "Error" none none (mkChain n)

/-! ### Transport fan-out (`fanOutToTransformers` in `src/core/pipeline.ts`) -/

/-- Delivery behaviour of one transformer's `transform` call. -/
inductive TransformEffect where
  | ok
  | throwSync
  | rejectAsync
deriving DecidableEq, Repr

/-- What the fan-out loop sees of a transformer. -/
structure FanTransformer where
  level : Option LevelName
  effect : TransformEffect
deriving DecidableEq, Repr

/-- The raw `t.transform(entry)` call: either a synchronous exception,
or a normal return of an awaitable together with its eventual outcome. -/
def rawTransform (t : FanTransformer) : Except String (Except String Unit) :=
  match t.effect with
  | .throwSync => .error "sync throw"
  | .rejectAsync => .ok (.error "rejected")
  | .ok => .ok (.ok ())

/-- `t.level ? resolveLevel(t.level) : loggerLevel` (a level name is a
non-empty string, hence always truthy). -/
def effectiveLevel (t : FanTransformer) (loggerLevel : WithTop ℕ) :
    WithTop ℕ :=
  match t.level with
  | some l => resolveLevel l
  | none => loggerLevel

/-- Observable outcome of the fan-out loop: which transformers had their
`transform` invoked (in list order), whether any exception escaped the
loop to the logging call site, and any awaitable rejection left without
a handler. -/
structure FanOutResult where
  invoked : List FanTransformer
  escaped : Option String
  unhandledRejections : List String
deriving DecidableEq, Repr

/-- `fanOutToTransformers(entry, transformers, loggerLevel)`: for each
transformer, skip it unless `shouldLog(entry.level, tLevel)`; otherwise
invoke it inside `try`/`catch` (a synchronous throw is swallowed) and,
when it returns an awaitable, attach a `.catch` handler that discards
the rejection. -/
def fanOutToTransformers (entryLevel : WithTop ℕ)
    (ts : List FanTransformer) (loggerLevel : WithTop ℕ) : FanOutResult :=
  match ts with
  | [] => { invoked := [], escaped := none, unhandledRejections := [] }
  | t :: rest =>
      if shouldLog entryLevel (effectiveLevel t loggerLevel) then
        match rawTransform t with
        | .error _ =>
            -- synchronous throw: caught by the `try`/`catch`, loop continues
            let r := fanOutToTransformers entryLevel rest loggerLevel
            { r with invoked := t :: r.invoked }
        | .ok _ =>
            -- awaitable returned: `.catch(() => {})` attached, so an
            -- eventual rejection is discarded, never left unhandled
            let r := fanOutToTransformers entryLevel rest loggerLevel
            { r with invoked := t :: r.invoked }
      else fanOutToTransformers entryLevel rest loggerLevel

/-! ### Webhook transport retry loop (`sendBatch` in `src/transformers/webhook.ts`) -/

/-- Outcome of one `fetch` call: an HTTP response with a status code, or
a transport-level failure (the awaited `fetch` throws). -/
inductive FetchOutcome where
  | status (code : ℕ)
  | networkError
deriving DecidableEq, Repr

/-- `response.ok`: status in the inclusive range 200–299. -/
def respOk : FetchOutcome → Bool
  | .status c => decide (200 ≤ c ∧ c ≤ 299)
  | .networkError => false

/-- `Math.min(1000 * 2 ** attempt, 30000)`. -/
def backoffDelay (attempt : ℕ) : ℕ := min (1000 * 2 ^ attempt) 30000

/-- `sendBatch(entries, attempt)` of the webhook transformer, run
against a schedule `resp` giving the outcome of the fetch made on each
attempt number.  Returns the number of `fetch` calls performed and the
list of backoff delays awaited, in order.  On a response that is not
`ok` it retries while `retry && attempt < maxRetries`; on a thrown
fetch it retries under the same condition, and past it the failure is
swallowed — `sendBatch` itself never rejects. -/
def sendBatch (retry : Bool) (maxRetries : ℕ) (resp : ℕ → FetchOutcome)
    (attempt : ℕ) : ℕ × List ℕ :=
  match resp attempt with
  | .networkError =>
      if h : retry = true ∧ attempt < maxRetries then
        let rest := sendBatch retry maxRetries resp (attempt + 1)
        (rest.1 + 1, backoffDelay attempt :: rest.2)
      else (1, [])
  | .status c =>
      if h : ¬(200 ≤ c ∧ c ≤ 299) ∧ retry = true ∧ attempt < maxRetries then
        let rest := sendBatch retry maxRetries resp (attempt + 1)
        (rest.1 + 1, backoffDelay attempt :: rest.2)
      else (1, [])
termination_by maxRetries - attempt
decreasing_by
  · omega
  · omega

/-! ### Level-override middleware (`src/middleware/level-override`) -/

/-- The parts of a `LogEntry` that `levelOverrideMiddleware` inspects:
`meta` (a string-keyed object), the optional `meta.headers` object, and
the optional bound `context`. -/
structure OvEntry where
  level : WithTop ℕ
  levelName : LevelName
  meta : List (String × String)
  metaHeaders : Option (List (String × String))
  context : Option (List (String × String))
deriving DecidableEq, Repr

/-- Property read `obj[key]` on a string-valued object. -/
def jsGet (m : List (String × String)) (k : String) : Option String :=
  (m.find? (fun p => p.1 = k)).map Prod.snd

/-- JS `a || b` on string values: `undefined` and the empty string are
falsy and fall through to the right operand. -/
def jsOrStr : Option String → Option String → Option String
  | some s, alt => if s = "" then alt else some s
  | none, alt => alt

/-- `meta[key] || context?.[key] || (meta.headers)?.[key]`. -/
def overrideValue (key : String) (e : OvEntry) : Option String :=
  jsOrStr (jsGet e.meta key)
    (jsOrStr (match e.context with | some c => jsGet c key | none => none)
      (match e.metaHeaders with | some h => jsGet h key | none => none))

/-- `delete obj[key]`. -/
def jsDelete (m : List (String × String)) (k : String) :
    List (String × String) :=
  m.filter (fun p => p.1 ≠ k)

/-- The middleware body: `some e'` means `next(e')` was called (the
entry continued down the chain), `none` would mean the entry was
dropped.  When the looked-up value is a truthy string, uppercase it and
check `LogLevel[upperName]`; every level name maps to a truthy number,
so a known name overrides `level`/`levelName` and, when `cleanup` is
set, deletes the trigger key from `meta` and `meta.headers`.  In every
case the function falls through to `next(entry)`. -/
def levelOverride (key : String) (cleanup : Bool) (e : OvEntry) :
    Option OvEntry :=
  match overrideValue key e with
  | some s =>
      if s ≠ "" then
        match lookupLogLevel (strUpper s) with
        | some l =>
            let e1 := { e with level := LogLevel l, levelName := l }
            let e2 :=
              if cleanup then
                { e1 with
                  meta := jsDelete e1.meta key
                  metaHeaders := e1.metaHeaders.map (fun h => jsDelete h key) }
              else e1
            some e2
        | none => some e
      else some e
  | none => some e

/-! ### Deduplication middleware (`src/middleware/deduplication`) -/

/-- The `meta` of an entry passing the deduplication middleware: an
opaque payload plus the `duplicateCount` field the middleware may add
by spreading `{...meta, duplicateCount: count}`. -/
structure DedupMeta where
  payload : ℕ
  duplicateCount : Option ℕ
deriving DecidableEq, Repr

/-- An entry as the deduplication middleware sees it. -/
structure DupEntry where
  id : ℕ
  meta : DedupMeta
deriving DecidableEq, Repr

/-- The `buffer : Map<string, DedupState>` of the middleware: key to
first entry and running count, in insertion order.  A window timer is
pending for a key exactly while that key is in the map. -/
abbrev DedupState := List (String × DupEntry × ℕ)

/-- `buffer.get(key)`. -/
def dedupGet (st : DedupState) (k : String) : Option (DupEntry × ℕ) :=
  (st.find? (fun p => p.1 = k)).map Prod.snd

/-- `buffer.set(key, v)`: overwrite in place, else append. -/
def dedupSet (st : DedupState) (k : String) (v : DupEntry × ℕ) :
    DedupState :=
  if st.any (fun p => p.1 = k) then
    st.map (fun p => if p.1 = k then (k, v) else p)
  else st ++ [(k, v)]

/-- `buffer.delete(key)`. -/
def dedupDelete (st : DedupState) (k : String) : DedupState :=
  st.filter (fun p => p.1 ≠ k)

/-- An entry arriving at the middleware (`keyFn` is the configured key
function).  A known key increments its count and drops this instance;
a new key is stored with count 1 and a window timer.  Nothing is
forwarded to `next` on arrival; the second component is the list of
entries forwarded (always empty here). -/
def dedupArrive (keyFn : DupEntry → String) (st : DedupState)
    (e : DupEntry) : DedupState × List DupEntry :=
  let key := keyFn e
  match dedupGet st key with
  | some (ent, c) => (dedupSet st key (ent, c + 1), [])
  | none => (dedupSet st key (e, 1), [])

/-- A sequence of arrivals, collecting everything forwarded to `next`. -/
def dedupArriveAll (keyFn : DupEntry → String) (st : DedupState)
    (es : List DupEntry) : DedupState × List DupEntry :=
  es.foldl
    (fun acc e =>
      let r := dedupArrive keyFn acc.1 e
      (r.1, acc.2 ++ r.2))
    (st, [])

/-- The window timer for `key` firing: if the key is still buffered,
delete it and forward the stored first entry, with
`meta.duplicateCount := count` spread in only when `count > 1`. -/
def dedupFire (st : DedupState) (k : String) : DedupState × List DupEntry :=
  match dedupGet st k with
  | some (ent, c) =>
      (dedupDelete st k,
        [if 1 < c then
            { ent with meta := { ent.meta with duplicateCount := some c } }
          else ent])
  | none => (st, [])

/-! ## Theorems -/

/-- State invariant of the ring buffer after any sequence of writes into
a fresh transport of positive capacity. -/
theorem writeAll_state (cap : ℕ) (hcap : 0 < cap) (es : List RBEntry) :
    ((mkRingBuffer cap).writeAll es).maxSize = cap ∧
    ((mkRingBuffer cap).writeAll es).count = min es.length cap ∧
    ((mkRingBuffer cap).writeAll es).head = es.length % cap ∧
    ((mkRingBuffer cap).writeAll es).buffer.length = min es.length cap ∧
    ((mkRingBuffer cap).writeAll es).logicalView = es.drop (es.length - cap) := by
  induction es using List.reverseRecOn with
  | nil =>
      refine ⟨rfl, by simp [RingBuffer.writeAll, mkRingBuffer],
        by simp [RingBuffer.writeAll, mkRingBuffer],
        by simp [RingBuffer.writeAll, mkRingBuffer], ?_⟩
      simp [RingBuffer.writeAll, mkRingBuffer, RingBuffer.logicalView, hcap]
  | append_singleton es e ih =>
      obtain ⟨h1, h2, h3, h4, h5⟩ := ih
      have hstep : (mkRingBuffer cap).writeAll (es ++ [e]) =
          ((mkRingBuffer cap).writeAll es).write e := by
        rw [RingBuffer.writeAll, RingBuffer.writeAll, List.foldl_append,
          List.foldl_cons, List.foldl_nil]
      rw [hstep]
      set rb := (mkRingBuffer cap).writeAll es with hrb
      set n := es.length with hn
      by_cases hlt : n < cap
      · -- not yet full: push branch of `write`
        have hcond : rb.count < rb.maxSize := by rw [h1, h2]; omega
        have hw : rb.write e =
            { rb with
              buffer := rb.buffer ++ [e]
              count := rb.count + 1
              head := (rb.head + 1) % rb.maxSize } := by
          rw [RingBuffer.write, if_pos hcond]
        have hbuf : rb.buffer = es := by
          have hv : rb.logicalView = rb.buffer := by
            rw [RingBuffer.logicalView, if_pos hcond]
          rw [hv] at h5
          rw [h5, Nat.sub_eq_zero_of_le (le_of_lt hlt), List.drop_zero]
        have hhead : ((rb.head + 1) % rb.maxSize) = (n + 1) % cap := by
          rw [h1, h3, Nat.mod_add_mod]
        refine ⟨by rw [hw]; exact h1, ?_, ?_, ?_, ?_⟩
        · rw [hw]
          show rb.count + 1 = min (es ++ [e]).length cap
          rw [h2]; simp; omega
        · rw [hw]
          show (rb.head + 1) % rb.maxSize = (es ++ [e]).length % cap
          rw [hhead]; simp
        · rw [hw]
          show (rb.buffer ++ [e]).length = min (es ++ [e]).length cap
          simp [hbuf]; omega
        · rw [hw]
          rw [RingBuffer.logicalView]
          by_cases hfull : n + 1 < cap
          · rw [if_pos (by show rb.count + 1 < rb.maxSize; rw [h1, h2]; omega)]
            show rb.buffer ++ [e] = (es ++ [e]).drop ((es ++ [e]).length - cap)
            rw [hbuf]
            have : (es ++ [e]).length - cap = 0 := by simp; omega
            rw [this, List.drop_zero]
          · rw [if_neg (by show ¬ (rb.count + 1 < rb.maxSize); rw [h1, h2]; omega)]
            show (rb.buffer ++ [e]).drop ((rb.head + 1) % rb.maxSize) ++
                (rb.buffer ++ [e]).take ((rb.head + 1) % rb.maxSize) =
                (es ++ [e]).drop ((es ++ [e]).length - cap)
            have hcapn : n + 1 = cap := by omega
            have hzero : (rb.head + 1) % rb.maxSize = 0 := by
              rw [hhead, hcapn, Nat.mod_self]
            rw [hzero, List.drop_zero, List.take_zero, List.append_nil, hbuf]
            have : (es ++ [e]).length - cap = 0 := by simp; omega
            rw [this, List.drop_zero]
      · -- buffer full: overwrite branch of `write`
        have hcount : rb.count = cap := by rw [h2]; omega
        have hcond : ¬ rb.count < rb.maxSize := by rw [h1, hcount]; omega
        have hw : rb.write e =
            { rb with
              buffer := rb.buffer.set rb.head e
              head := (rb.head + 1) % rb.maxSize } := by
          rw [RingBuffer.write, if_neg hcond]
        have hlen : rb.buffer.length = cap := by rw [h4]; omega
        have hh : rb.head < rb.buffer.length := by
          rw [hlen, h3]; exact Nat.mod_lt _ hcap
        have hview : rb.buffer.drop rb.head ++ rb.buffer.take rb.head =
            es.drop (n - cap) := by
          have hv : rb.logicalView =
              rb.buffer.drop rb.head ++ rb.buffer.take rb.head := by
            rw [RingBuffer.logicalView, if_neg hcond]
          rw [hv] at h5; exact h5
        have hset : rb.buffer.set rb.head e =
            rb.buffer.take rb.head ++ e :: rb.buffer.drop (rb.head + 1) := by
          rw [List.set_eq_take_append_cons_drop, if_pos hh]
        have hTlen : (rb.buffer.take rb.head).length = rb.head := by
          rw [List.length_take]; omega
        have hhead : ((rb.head + 1) % rb.maxSize) = (n + 1) % cap := by
          rw [h1, h3, Nat.mod_add_mod]
        have hdropcons : rb.buffer.drop rb.head =
            rb.buffer.get ⟨rb.head, hh⟩ :: rb.buffer.drop (rb.head + 1) := by
          rw [List.drop_eq_getElem_cons hh]; rfl
        have htail : (es.drop (n - cap)).tail =
            rb.buffer.drop (rb.head + 1) ++ rb.buffer.take rb.head := by
          rw [← hview, hdropcons]
          rfl
        have htail2 : es.drop (n + 1 - cap) =
            rb.buffer.drop (rb.head + 1) ++ rb.buffer.take rb.head := by
          rw [← htail, List.tail_drop]
          congr 1
          omega
        have hgoalL : (es ++ [e]).drop ((es ++ [e]).length - cap) =
            es.drop (n + 1 - cap) ++ [e] := by
          have hlen3 : (es ++ [e]).length - cap = n + 1 - cap := by
            simp only [List.length_append, List.length_cons, List.length_nil]
          rw [hlen3, List.drop_append_of_le_length (by omega)]
        refine ⟨by rw [hw]; exact h1, ?_, ?_, ?_, ?_⟩
        · rw [hw]
          show rb.count = min (es ++ [e]).length cap
          rw [hcount]; simp only [List.length_append, List.length_cons,
            List.length_nil]; omega
        · rw [hw]
          show (rb.head + 1) % rb.maxSize = (es ++ [e]).length % cap
          rw [hhead]; simp
        · rw [hw]
          show (rb.buffer.set rb.head e).length = min (es ++ [e]).length cap
          rw [List.length_set, hlen]; simp; omega
        · rw [hw]
          rw [RingBuffer.logicalView]
          rw [if_neg (by show ¬ rb.count < rb.maxSize; exact hcond)]
          show (rb.buffer.set rb.head e).drop ((rb.head + 1) % rb.maxSize) ++
              (rb.buffer.set rb.head e).take ((rb.head + 1) % rb.maxSize) =
              (es ++ [e]).drop ((es ++ [e]).length - cap)
          rw [hgoalL, htail2, hset]
          by_cases hsucc : rb.head + 1 < cap
          · have hmod : (rb.head + 1) % rb.maxSize = rb.head + 1 := by
              rw [h1]; exact Nat.mod_eq_of_lt hsucc
            rw [hmod]
            have hsplit : rb.buffer.take rb.head ++ e :: rb.buffer.drop (rb.head + 1) =
                (rb.buffer.take rb.head ++ [e]) ++ rb.buffer.drop (rb.head + 1) := by
              simp
            rw [hsplit]
            have hlen2 : (rb.buffer.take rb.head ++ [e]).length = rb.head + 1 := by
              simp [hTlen]
            rw [List.drop_left' hlen2, List.take_left' hlen2]
            simp
          · have hcaph : rb.head + 1 = cap := by
              have := hh; rw [hlen] at this; omega
            have hmod : (rb.head + 1) % rb.maxSize = 0 := by
              rw [h1, hcaph, Nat.mod_self]
            rw [hmod, List.drop_zero, List.take_zero, List.append_nil]
            have hdropnil : rb.buffer.drop (rb.head + 1) = [] := by
              rw [hcaph, ← hlen, List.drop_length]
            rw [hdropnil]
            simp

/-- An unfiltered query returns exactly the logical view. -/
theorem getEntries_noQuery (rb : RingBuffer) :
    rb.getEntries noQuery = rb.logicalView := rfl

/-- `slice(-n)` agrees with "reverse, take `n`, reverse back". -/
theorem lastN_eq_drop (n : ℕ) (xs : List RBEntry) :
    lastN n xs = xs.drop (xs.length - n) := by
  rw [lastN, List.reverse_take, List.reverse_reverse, List.length_reverse]

/-- C1: with capacity `cap > 0`, after writing `cap + k` entries with
`k ≥ 1`, an unfiltered `getEntries()` returns exactly `cap` entries —
the last `cap` writes in write order, oldest first; with at most `cap`
writes it returns the entries in store order. -/
theorem ringBuffer_keeps_last_capacity_in_order (cap k : ℕ)
    (es : List RBEntry) (hcap : 0 < cap) :
    (es.length = cap + k → 1 ≤ k →
      ((mkRingBuffer cap).writeAll es).getEntries noQuery = es.drop k ∧
      (((mkRingBuffer cap).writeAll es).getEntries noQuery).length = cap) ∧
    (es.length ≤ cap →
      ((mkRingBuffer cap).writeAll es).getEntries noQuery = es) := by
  obtain ⟨-, -, -, -, h5⟩ := writeAll_state cap hcap es
  rw [getEntries_noQuery, h5]
  constructor
  · intro hlen hk
    constructor
    · rw [hlen]; congr 1; omega
    · rw [List.length_drop]; omega
  · intro hle
    rw [Nat.sub_eq_zero_of_le hle, List.drop_zero]

/-- C1 witness: capacity 3, writes A,B,C,D,E yield exactly [C,D,E]. -/
theorem ringBuffer_keeps_last_capacity_in_order_witness :
    ((mkRingBuffer 3).writeAll
        [⟨0, 30, 1⟩, ⟨1, 30, 2⟩, ⟨2, 30, 3⟩, ⟨3, 30, 4⟩, ⟨4, 30, 5⟩]).getEntries
        noQuery =
      [⟨2, 30, 3⟩, ⟨3, 30, 4⟩, ⟨4, 30, 5⟩] := by
  have h := (ringBuffer_keeps_last_capacity_in_order 3 2
    [⟨0, 30, 1⟩, ⟨1, 30, 2⟩, ⟨2, 30, 3⟩, ⟨3, 30, 4⟩, ⟨4, 30, 5⟩] (by decide)).1
    (by decide) (by decide)
  rw [h.1]
  decide

/-- C5: a query with level, since and limit set applies, in order, the
level floor, the timestamp floor, and then a tail-limit keeping the most
recent `lim` entries of the filtered set in original relative order. -/
theorem ringBuffer_getEntries_filters_then_tail_limit (rb : RingBuffer)
    (l : LevelName) (s lim : ℕ) (hs : 0 < s) (hlim : 0 < lim) :
    rb.getEntries { level := some l, since := some s, limit := some lim } =
      lastN lim
        ((rb.logicalView.filter
            (fun e => shouldLog e.level (resolveLevel l))).filter
          (fun e => decide (s ≤ e.timestamp))) := by
  rw [lastN_eq_drop, RingBuffer.getEntries]
  simp only
  rw [if_pos (by omega : s ≠ 0), if_pos (by omega : lim ≠ 0)]

/-- C5 witness: 5 writes msg-0 … msg-4, `limit: 2` returns the most
recent two, [msg-3, msg-4], in original order. -/
theorem ringBuffer_getEntries_filters_then_tail_limit_witness :
    ((mkRingBuffer 10).writeAll
        [⟨0, 30, 1⟩, ⟨1, 30, 2⟩, ⟨2, 30, 3⟩, ⟨3, 30, 4⟩, ⟨4, 30, 5⟩]).getEntries
        { level := some .TRACE, since := some 1, limit := some 2 } =
      [⟨3, 30, 4⟩, ⟨4, 30, 5⟩] := by
  rw [ringBuffer_getEntries_filters_then_tail_limit _ .TRACE 1 2
    (by decide) (by decide)]
  decide

/-- C2 counterexample: with `batchSize = 2`, the first write schedules a
flush timer and the second write triggers a size flush (both entries are
delivered), yet immediately after that flush the timer is still pending
— `doFlush` never cancels it. -/
theorem batch_sizeFlush_leaves_timer_pending_cx :
    (batchWriteAll 2 (initBatch ℕ) [0, 1]).delivered = [0, 1] ∧
    (batchWriteAll 2 (initBatch ℕ) [0, 1]).timerPending = true := by
  decide

/-- C2 amended: a write that makes the buffer reach `batchSize` flushes
immediately (the whole buffer goes to the inner sink and the buffer
empties) but does not cancel a pending interval timer: the flag is left
exactly as it was, and when the stale timer later fires it finds an
empty buffer and delivers nothing. -/
theorem batch_sizeFlush_does_not_cancel_timer {α : Type} (batchSize : ℕ)
    (s : BatchState α) (e : α) (hreach : batchSize ≤ s.buffer.length + 1) :
    (batchWrite batchSize s e).buffer = [] ∧
    (batchWrite batchSize s e).delivered = s.delivered ++ (s.buffer ++ [e]) ∧
    (batchWrite batchSize s e).timerPending = s.timerPending ∧
    (timerFire (batchWrite batchSize s e)).delivered =
      (batchWrite batchSize s e).delivered ∧
    (timerFire (batchWrite batchSize s e)).timerPending = false := by
  have hcond : batchSize ≤ (s.buffer ++ [e]).length := by simp; omega
  have hw : batchWrite batchSize s e =
      doFlush { s with buffer := s.buffer ++ [e] } := by
    rw [batchWrite]
    simp only
    rw [if_pos hcond]
  have hne : ¬ ((s.buffer ++ [e]).length = 0) := by simp
  have hflush : doFlush { s with buffer := s.buffer ++ [e] } =
      { s with buffer := [], delivered := s.delivered ++ (s.buffer ++ [e]) } := by
    rw [doFlush]
    simp only
    rw [if_neg hne]
  rw [hw, hflush]
  refine ⟨rfl, rfl, rfl, ?_, ?_⟩
  · rw [timerFire, doFlush]
    simp
  · rw [timerFire, doFlush]
    simp

/-- C2 witness: `batchSize = 2`, a one-entry buffer with a pending timer;
the next write flushes both entries yet the timer flag stays `true`. -/
theorem batch_sizeFlush_does_not_cancel_timer_witness :
    (batchWrite 2 (BatchState.mk [5] true []) 6).buffer = [] ∧
    (batchWrite 2 (BatchState.mk [5] true []) 6).delivered = [] ++ ([5] ++ [6]) ∧
    (batchWrite 2 (BatchState.mk [5] true []) 6).timerPending = true ∧
    (timerFire (batchWrite 2 (BatchState.mk [5] true []) 6)).delivered =
      (batchWrite 2 (BatchState.mk [5] true []) 6).delivered ∧
    (timerFire (batchWrite 2 (BatchState.mk [5] true []) 6)).timerPending = false :=
  batch_sizeFlush_does_not_cancel_timer 2 (BatchState.mk [5] true []) 6
    (by decide)

/-- Writing fewer than `batchSize` entries into a fresh wrapper buffers
them all, delivers nothing, and leaves a timer pending iff anything was
written. -/
theorem batchWriteAll_small {α : Type} (batchSize : ℕ) (es : List α)
    (h : es.length < batchSize) :
    batchWriteAll batchSize (initBatch α) es =
      { buffer := es, timerPending := !es.isEmpty, delivered := [] } := by
  induction es using List.reverseRecOn with
  | nil => simp [batchWriteAll, initBatch]
  | append_singleton es e ih =>
      have hlt : es.length < batchSize := by
        simp at h; omega
      have hstep : batchWriteAll batchSize (initBatch α) (es ++ [e]) =
          batchWrite batchSize (batchWriteAll batchSize (initBatch α) es) e := by
        rw [batchWriteAll, batchWriteAll, List.foldl_append, List.foldl_cons,
          List.foldl_nil]
      rw [hstep, ih hlt, batchWrite]
      simp only
      rw [if_neg (by simp at h ⊢; omega)]
      rw [scheduleFlush]
      by_cases ht : es.isEmpty
      · rw [if_neg (by simp [ht])]
        simp
      · rw [if_pos (by simp_all)]
        obtain ⟨a, as, rfl⟩ := List.exists_cons_of_ne_nil (by simp_all : es ≠ [])
        simp

/-- C6: writing `batchSize - 1` entries to a fresh wrapper delivers
nothing; one more write delivers the whole batch in a single flush, the
inner sink seeing every buffered entry once, in buffer order, and the
buffer ending empty. -/
theorem batch_flushes_exactly_at_batchSize {α : Type} (batchSize : ℕ)
    (es : List α) (e : α) (hpos : 0 < batchSize)
    (hlen : es.length = batchSize - 1) :
    (batchWriteAll batchSize (initBatch α) es).delivered = [] ∧
    (batchWriteAll batchSize (initBatch α) (es ++ [e])).delivered = es ++ [e] ∧
    (batchWriteAll batchSize (initBatch α) (es ++ [e])).buffer = [] := by
  have hlt : es.length < batchSize := by omega
  have hsmall := batchWriteAll_small batchSize es hlt
  refine ⟨by rw [hsmall], ?_, ?_⟩ <;>
  · have hstep : batchWriteAll batchSize (initBatch α) (es ++ [e]) =
        batchWrite batchSize (batchWriteAll batchSize (initBatch α) es) e := by
      rw [batchWriteAll, batchWriteAll, List.foldl_append, List.foldl_cons,
        List.foldl_nil]
    rw [hstep, hsmall, batchWrite]
    simp only
    rw [if_pos (by simp; omega), doFlush]
    simp only
    rw [if_neg (by simp)]
    try simp

/-- C6 witness: `batchSize = 2`, one write delivers nothing; the second
write delivers both entries, in order. -/
theorem batch_flushes_exactly_at_batchSize_witness :
    (batchWriteAll 2 (initBatch ℕ) [0]).delivered = [] ∧
    (batchWriteAll 2 (initBatch ℕ) ([0] ++ [1])).delivered = [0] ++ [1] ∧
    (batchWriteAll 2 (initBatch ℕ) ([0] ++ [1])).buffer = [] :=
  batch_flushes_exactly_at_batchSize 2 [0] 1 (by decide) (by decide)

/-- C3 counterexample: an entry whose `x-log-level` meta value is the
unknown level string "INVALID" is not dropped — `next(entry)` receives
it unchanged, with the trigger key still in place. -/
theorem levelOverride_unknown_name_forwards_cx :
    levelOverride "x-log-level" true
        ⟨30, .INFO, [("x-log-level", "INVALID")], none, none⟩ =
      some ⟨30, .INFO, [("x-log-level", "INVALID")], none, none⟩ := by
  decide

/-- C3 amended: whenever the override key resolves (meta, then context,
then meta.headers) to a truthy string that does not map to a known level
name, the middleware forwards the entry to the rest of the chain
completely unchanged: no level override and no cleanup; it never drops
the entry. -/
theorem levelOverride_unknown_name_forwards_unchanged (key : String)
    (cleanup : Bool) (e : OvEntry) (s : String)
    (hval : overrideValue key e = some s) (hne : s ≠ "")
    (hunk : lookupLogLevel (strUpper s) = none) :
    levelOverride key cleanup e = some e := by
  rw [levelOverride, hval]
  simp only
  rw [if_pos hne, hunk]

/-- C3 witness: the unknown name "verbose" arriving through the bound
context is forwarded unchanged. -/
theorem levelOverride_unknown_name_forwards_unchanged_witness :
    levelOverride "x-log-level" true
        ⟨30, .INFO, [], none, some [("x-log-level", "verbose")]⟩ =
      some ⟨30, .INFO, [], none, some [("x-log-level", "verbose")]⟩ :=
  levelOverride_unknown_name_forwards_unchanged "x-log-level" true _
    "verbose" (by decide) (by decide) (by decide)

/-- C7: serialization caps the cause chain: the serialized tree carries
`min (chain length) 5` cause links — never more than 5 — and a 7-link
native chain serializes to exactly 5 links. -/
theorem serializeError_caps_cause_chain_at_five (e : JsError) (inc : Bool) :
    (serializeError e inc 0).causeLinks = min e.causeLinks 5 ∧
    (serializeError e inc 0).causeLinks ≤ 5 ∧
    (serializeError (mkChain 7) inc 0).causeLinks = 5 := by
  have key : ∀ (e : JsError) (d : ℕ),
      (serializeError e inc d).causeLinks = min e.causeLinks (5 - d) := by
    intro e
    induction e with
    | leaf m n c st =>
        intro d
        simp [serializeError, JsError.causeLinks, SerializedError.causeLinks]
    | withCause m n c st cause ih =>
        intro d
        rw [serializeError]
        by_cases hd : d < 5
        · rw [if_pos hd]
          rw [SerializedError.causeLinks, ih (d + 1), JsError.causeLinks]
          omega
        · rw [if_neg hd]
          rw [SerializedError.causeLinks, JsError.causeLinks]
          omega
  refine ⟨?_, ?_, ?_⟩
  · rw [key e 0]
  · rw [key e 0]; omega
  · rw [key (mkChain 7) 0]
    decide

/-- C8: the fan-out loop invokes every transformer that passes the level
filter, in list order, regardless of earlier transformers throwing
synchronously or returning rejecting awaitables; no exception escapes to
the logging call site and no rejection is left unhandled. -/
theorem fanOut_isolates_failures_and_never_throws
    (entryLevel loggerLevel : WithTop ℕ) (ts : List FanTransformer) :
    (fanOutToTransformers entryLevel ts loggerLevel).escaped = none ∧
    (fanOutToTransformers entryLevel ts loggerLevel).unhandledRejections = [] ∧
    (fanOutToTransformers entryLevel ts loggerLevel).invoked =
      ts.filter (fun t => shouldLog entryLevel (effectiveLevel t loggerLevel)) := by
  induction ts with
  | nil => exact ⟨rfl, rfl, rfl⟩
  | cons t rest ih =>
      obtain ⟨ih1, ih2, ih3⟩ := ih
      by_cases hpass : shouldLog entryLevel (effectiveLevel t loggerLevel)
      · cases hr : rawTransform t with
        | error msg =>
            rw [fanOutToTransformers]
            rw [if_pos hpass, hr]
            exact ⟨ih1, ih2, by simp [List.filter_cons, hpass, ih3]⟩
        | ok v =>
            rw [fanOutToTransformers]
            rw [if_pos hpass, hr]
            exact ⟨ih1, ih2, by simp [List.filter_cons, hpass, ih3]⟩
      · rw [fanOutToTransformers]
        rw [if_neg hpass]
        exact ⟨ih1, ih2, by simp [List.filter_cons, hpass, ih3]⟩

/-- C10: after `setLevel("SILENT")` every one of the six log methods is
a no-op and `isLevelEnabled` is false for each of the six severity
names, yet `getLevel()` reports INFO because the value-to-name map drops
the non-finite SILENT weight. -/
theorem silent_level_disables_logging_but_getLevel_INFO :
    (([.TRACE, .DEBUG, .INFO, .WARN, .ERROR, .FATAL] : List LevelName).all
        (fun l => !(logMethodEmits l (setLevel .SILENT)) &&
          !(isLevelEnabled (setLevel .SILENT) l)) = true) ∧
    getLevel (setLevel .SILENT) = .INFO ∧
    setLevel .SILENT = ⊤ := by
  decide

/-- One backoff step folded into a range of delays. -/
theorem delays_succ (a n : ℕ) :
    backoffDelay a :: (List.range n).map (fun i => backoffDelay (a + 1 + i)) =
      (List.range (n + 1)).map (fun i => backoffDelay (a + i)) := by
  rw [List.range_succ_eq_map, List.map_cons, List.map_map]
  have htail : (List.range n).map (fun i => backoffDelay (a + 1 + i)) =
      (List.range n).map ((fun i => backoffDelay (a + i)) ∘ Nat.succ) := by
    apply List.map_congr_left
    intro i _
    simp only [Function.comp_apply]
    congr 1
    omega
  rw [htail]
  congr 1

/-- Unfolding of `sendBatch` when the fetch of this attempt throws. -/
theorem sendBatch_unfold_network (retry : Bool) (maxRetries : ℕ)
    (resp : ℕ → FetchOutcome) (attempt : ℕ)
    (h : resp attempt = .networkError) :
    sendBatch retry maxRetries resp attempt =
      if retry = true ∧ attempt < maxRetries then
        ((sendBatch retry maxRetries resp (attempt + 1)).1 + 1,
          backoffDelay attempt :: (sendBatch retry maxRetries resp (attempt + 1)).2)
      else (1, []) := by
  rw [sendBatch, h]
  rfl

/-- Unfolding of `sendBatch` when the fetch of this attempt returns an
HTTP response. -/
theorem sendBatch_unfold_status (retry : Bool) (maxRetries : ℕ)
    (resp : ℕ → FetchOutcome) (attempt : ℕ) (c : ℕ)
    (h : resp attempt = .status c) :
    sendBatch retry maxRetries resp attempt =
      if ¬(200 ≤ c ∧ c ≤ 299) ∧ retry = true ∧ attempt < maxRetries then
        ((sendBatch retry maxRetries resp (attempt + 1)).1 + 1,
          backoffDelay attempt :: (sendBatch retry maxRetries resp (attempt + 1)).2)
      else (1, []) := by
  rw [sendBatch, h]
  rfl

/-- C4 counterexample: with retry enabled and `maxRetries = 3`, a batch
whose every fetch returns HTTP 404 — a 4xx-class response — is fetched 4
times: the 4xx response is retried three times with backoff, it is not a
terminal rejection. -/
theorem webhook_4xx_is_retried_cx :
    sendBatch true 3 (fun _ => .status 404) 0 = (4, [1000, 2000, 4000]) := by
  simp [sendBatch, backoffDelay]

/-- C4 amended: the webhook retry loop distinguishes only `response.ok`:
transport-level failures and every non-2xx response — 4xx exactly like
5xx — are retried with exponentially doubling delay capped at 30000 ms,
up to `maxRetries`; the loop always terminates normally, so nothing
propagates to the producer. -/
theorem webhook_retries_all_non_ok_with_capped_backoff (maxRetries : ℕ)
    (resp : ℕ → FetchOutcome) (hfail : ∀ i, respOk (resp i) = false)
    (attempt : ℕ) :
    sendBatch true maxRetries resp attempt =
      (maxRetries - attempt + 1,
        (List.range (maxRetries - attempt)).map
          (fun i => backoffDelay (attempt + i))) := by
  have key : ∀ (n a : ℕ), maxRetries - a = n →
      sendBatch true maxRetries resp a =
        (n + 1, (List.range n).map (fun i => backoffDelay (a + i))) := by
    intro n
    induction n with
    | zero =>
        intro a ha
        cases hresp : resp a with
        | networkError =>
            rw [sendBatch_unfold_network true maxRetries resp a hresp]
            have hcond : ¬((true = true) ∧ a < maxRetries) := by
              rintro ⟨-, h2⟩
              omega
            rw [if_neg hcond]
            simp
        | status c =>
            rw [sendBatch_unfold_status true maxRetries resp a c hresp]
            have hcond :
                ¬(¬(200 ≤ c ∧ c ≤ 299) ∧ (true = true) ∧ a < maxRetries) := by
              rintro ⟨-, -, h2⟩
              omega
            rw [if_neg hcond]
            simp
    | succ n ih =>
        intro a ha
        have hlt : a < maxRetries := by omega
        cases hresp : resp a with
        | networkError =>
            rw [sendBatch_unfold_network true maxRetries resp a hresp]
            have hcond : (true = true) ∧ a < maxRetries := ⟨rfl, hlt⟩
            rw [if_pos hcond]
            rw [ih (a + 1) (by omega)]
            rw [delays_succ]
        | status c =>
            rw [sendBatch_unfold_status true maxRetries resp a c hresp]
            have hok := hfail a
            rw [hresp, respOk] at hok
            have hc : ¬(200 ≤ c ∧ c ≤ 299) := by
              intro hcc
              simp [hcc] at hok
            have hcond :
                ¬(200 ≤ c ∧ c ≤ 299) ∧ (true = true) ∧ a < maxRetries :=
              ⟨hc, rfl, hlt⟩
            rw [if_pos hcond]
            rw [ih (a + 1) (by omega)]
            rw [delays_succ]
  exact key (maxRetries - attempt) attempt rfl

/-- C4 witness: `maxRetries = 3`, every fetch answering HTTP 500: four
fetches, with delays 1000, 2000, 4000 ms. -/
theorem webhook_retries_all_non_ok_with_capped_backoff_witness :
    sendBatch true 3 (fun _ => .status 500) 0 =
      (3 - 0 + 1, (List.range (3 - 0)).map (fun i => backoffDelay (0 + i))) :=
  webhook_retries_all_non_ok_with_capped_backoff 3 (fun _ => .status 500)
    (fun _ => rfl) 0

/-- Arrivals whose key is already buffered only increment the stored
count; nothing is forwarded. -/
theorem dedup_fold_dups (keyFn : DupEntry → String) (k : String)
    (e : DupEntry) :
    ∀ (rest : List DupEntry), (∀ x ∈ rest, keyFn x = k) →
      ∀ (c : ℕ) (acc : List DupEntry),
        rest.foldl
          (fun a x =>
            let r := dedupArrive keyFn a.1 x
            (r.1, a.2 ++ r.2))
          ([(k, e, c)], acc) = ([(k, e, c + rest.length)], acc) := by
  intro rest
  induction rest with
  | nil => intro _ c acc; simp
  | cons x xs ih =>
      intro hrest c acc
      have hx : keyFn x = k := hrest x (by simp)
      have harr : dedupArrive keyFn [(k, e, c)] x = ([(k, e, c + 1)], []) := by
        simp [dedupArrive, dedupGet, dedupSet, hx]
      rw [List.foldl_cons]
      simp only [harr, List.append_nil]
      rw [ih (fun y hy => hrest y (by simp [hy])) (c + 1) acc]
      have harith : c + 1 + xs.length = c + (x :: xs).length := by
        simp only [List.length_cons]
        omega
      rw [harith]

/-- C9 counterexample: a single entry (N = 1) in a window is forwarded
at window end without any `duplicateCount` in its metadata — the claim
asks for a duplicate count equal to N for every N. -/
theorem dedup_single_entry_has_no_duplicateCount_cx :
    (dedupArriveAll (fun _ => "k") [] [⟨0, ⟨100, none⟩⟩]).2 = [] ∧
    dedupFire (dedupArriveAll (fun _ => "k") [] [⟨0, ⟨100, none⟩⟩]).1 "k" =
      ([], [⟨0, ⟨100, none⟩⟩]) ∧
    (⟨0, ⟨100, none⟩⟩ : DupEntry).meta.duplicateCount = none := by
  decide

/-- C9 amended: N ≥ 2 entries with the same deduplication key arriving
within one window forward nothing on arrival and exactly one entry when
the window timer fires — the first instance, carrying
`meta.duplicateCount = N`; a lone entry (N = 1) is forwarded at window
end unchanged, without a `duplicateCount` field. -/
theorem dedup_window_collapses_duplicates_with_count
    (keyFn : DupEntry → String) (k : String) (e : DupEntry)
    (rest : List DupEntry) (hk : keyFn e = k)
    (hrest : ∀ x ∈ rest, keyFn x = k) (hN : 1 ≤ rest.length) :
    (dedupArriveAll keyFn [] (e :: rest)).2 = [] ∧
    dedupFire (dedupArriveAll keyFn [] (e :: rest)).1 k =
      ([], [{ e with meta := { e.meta with
                duplicateCount := some ((e :: rest).length) } }]) := by
  have hfirst : dedupArrive keyFn [] e = ([(k, e, 1)], []) := by
    simp [dedupArrive, dedupGet, dedupSet, hk]
  have hall : dedupArriveAll keyFn [] (e :: rest) =
      ([(k, e, 1 + rest.length)], []) := by
    rw [dedupArriveAll, List.foldl_cons]
    simp only [hfirst, List.append_nil]
    exact dedup_fold_dups keyFn k e rest hrest 1 []
  rw [hall]
  refine ⟨rfl, ?_⟩
  have hget : dedupGet [(k, e, 1 + rest.length)] k =
      some (e, 1 + rest.length) := by
    simp [dedupGet]
  rw [dedupFire, hget]
  simp only [dedupDelete]
  rw [if_pos (by omega : 1 < 1 + rest.length)]
  have hdel : ([(k, e, 1 + rest.length)] : DedupState).filter
      (fun p => p.1 ≠ k) = [] := by
    simp
  rw [hdel]
  have hnum : 1 + rest.length = (e :: rest).length := by
    simp only [List.length_cons]
    omega
  rw [hnum]

/-- C9 witness: three identical entries collapse to the first one,
forwarded at window end with `duplicateCount = 3`. -/
theorem dedup_window_collapses_duplicates_with_count_witness :
    (dedupArriveAll (fun _ => "k") []
        [⟨0, ⟨100, none⟩⟩, ⟨1, ⟨100, none⟩⟩, ⟨2, ⟨100, none⟩⟩]).2 = [] ∧
    dedupFire (dedupArriveAll (fun _ => "k") []
        [⟨0, ⟨100, none⟩⟩, ⟨1, ⟨100, none⟩⟩, ⟨2, ⟨100, none⟩⟩]).1 "k" =
      ([], [{ (⟨0, ⟨100, none⟩⟩ : DupEntry) with
          meta := { (⟨0, ⟨100, none⟩⟩ : DupEntry).meta with
            duplicateCount := some (([(⟨0, ⟨100, none⟩⟩ : DupEntry),
              ⟨1, ⟨100, none⟩⟩, ⟨2, ⟨100, none⟩⟩] : List DupEntry).length) } }]) :=
  dedup_window_collapses_duplicates_with_count (fun _ => "k") "k"
    ⟨0, ⟨100, none⟩⟩ [⟨1, ⟨100, none⟩⟩, ⟨2, ⟨100, none⟩⟩] rfl
    (by decide) (by decide)

end Voltlog
